import Mathlib

/- Verification of the telemetry logger in
   old_codes/pressures_temperatures_reading/Read_Pressures_Temperatures.py.

   The statistical correction layer (`correct`) works on the parsed field
   values, which are finite decimals, so it is modelled exactly over ℚ; the
   IEEE NaN that numpy produces as the mean of an empty selection is a
   separate constructor.  The unit-conversion layer (`convert`/`T`) is
   modelled over the reals together with the numpy special values
   inf, -inf and NaN.  Rounding of float64 arithmetic is not modelled. -/

/-- A numpy float64 scalar in the correction layer: an ordinary (exactly
represented) value, or NaN. -/
inductive QF where
  | nan : QF
  | val (q : ℚ) : QF
deriving DecidableEq

/-- Maximum of a list of samples (`np.max`); the empty case never arises in
`correct`, which is modelled as `none` (numpy ValueError) on empty input. -/
def listMax : List ℚ → ℚ
  | [] => 0
  | [x] => x
  | x :: y :: xs => max x (listMax (y :: xs))

/-- Minimum of a list of samples (`np.min`). -/
def listMin : List ℚ → ℚ
  | [] => 0
  | [x] => x
  | x :: y :: xs => min x (listMin (y :: xs))

/-- `ndarray.ptp()`: peak-to-peak, max minus min. -/
def ptp (l : List ℚ) : ℚ := listMax l - listMin l

/-- Insert into an ascending list, keeping it ascending. -/
def insertSorted (x : ℚ) : List ℚ → List ℚ
  | [] => [x]
  | y :: ys => if x ≤ y then x :: y :: ys else y :: insertSorted x ys

/-- Ascending insertion sort, the sort underlying `np.median`. -/
def sortQ : List ℚ → List ℚ
  | [] => []
  | x :: xs => insertSorted x (sortQ xs)

/-- `np.median`: middle element of the sorted data for odd length, average of
the two middle elements for even length. -/
def npMedian (l : List ℚ) : ℚ :=
  if l.length % 2 = 1 then (sortQ l).getD (l.length / 2) 0
  else ((sortQ l).getD (l.length / 2 - 1) 0 + (sortQ l).getD (l.length / 2) 0) / 2

/-- Arithmetic mean of a nonempty list (`ndarray.mean()`). -/
def meanQ (l : List ℚ) : ℚ := l.sum / (l.length : ℚ)

/-- `ndarray.mean()` including numpy's behaviour on an empty array: NaN
(with a RuntimeWarning, not an exception). -/
def npMeanQ (l : List ℚ) : QF :=
  if l = [] then QF.nan else QF.val (meanQ l)

/-- The selection `vols[good_datas]` with mask
`abs(vols - np.median(vols)) < TOL` from `correct`. -/
def goodData (vols : List ℚ) (TOL : ℚ) : List ℚ :=
  vols.filter (fun v => decide (|v - npMedian vols| < TOL))

/-- `correct(vols, TOL)` from the source.  `none` models the ValueError numpy
raises for `ptp()` of an empty array; on nonempty input the function always
returns a scalar — possibly NaN, never an exception. -/
def correct (vols : List ℚ) (TOL : ℚ) : Option QF :=
  match vols with
  | [] => none
  | _ :: _ =>
    some (if ptp vols > TOL then npMeanQ (goodData vols TOL) else npMeanQ vols)

/-- Whitespace stripped by Python `float()`. -/
def isSpaceChar (c : Char) : Bool :=
  c = ' ' || c = '\t' || c = '\n' || c = '\r'

/-- Strip leading and trailing whitespace. -/
def stripChars (s : List Char) : List Char :=
  ((s.dropWhile isSpaceChar).reverse.dropWhile isSpaceChar).reverse

/-- Numeric value of a decimal digit character. -/
def digitVal (c : Char) : ℕ := c.toNat - 48

/-- Value of a digit string, most significant digit first. -/
def digitsVal (ds : List Char) : ℕ := ds.foldl (fun a c => a * 10 + digitVal c) 0

/-- Exponent part of a float literal: empty, or e/E followed by an optional
sign and at least one digit, with nothing trailing. -/
def parseExpPart : List Char → Option ℤ
  | [] => some 0
  | c :: rest =>
    if c = 'e' ∨ c = 'E' then
      match rest with
      | '+' :: r =>
        if r ≠ [] ∧ r.dropWhile Char.isDigit = [] then some (digitsVal r : ℤ) else none
      | '-' :: r =>
        if r ≠ [] ∧ r.dropWhile Char.isDigit = [] then some (-(digitsVal r : ℤ)) else none
      | r =>
        if r ≠ [] ∧ r.dropWhile Char.isDigit = [] then some (digitsVal r : ℤ) else none
    else none

/-- Python `float()` on a field string, restricted to finite decimal literals
(surrounding whitespace, an optional sign, digits with an optional decimal
point, an optional exponent).  The spellings inf/infinity/nan and underscore
digit separators are accepted by Python but not modelled; no theorem below
depends on a field containing them. -/
def pyFloatOf (s0 : List Char) : Option ℚ :=
  let s := stripChars s0
  let sgnSplit : ℚ × List Char :=
    match s with
    | '+' :: r => (1, r)
    | '-' :: r => (-1, r)
    | _ => (1, s)
  let sgn := sgnSplit.1
  let s1 := sgnSplit.2
  let ip := s1.takeWhile Char.isDigit
  let s2 := s1.dropWhile Char.isDigit
  match s2 with
  | '.' :: r =>
    let fp := r.takeWhile Char.isDigit
    let s3 := r.dropWhile Char.isDigit
    if ip = [] ∧ fp = [] then none
    else
      match parseExpPart s3 with
      | none => none
      | some e =>
        some (sgn * ((digitsVal ip : ℚ) + (digitsVal fp : ℚ) / (10 : ℚ) ^ fp.length)
          * (10 : ℚ) ^ e)
  | _ =>
    if ip = [] then none
    else
      match parseExpPart s2 with
      | none => none
      | some e => some (sgn * (digitsVal ip : ℚ) * (10 : ℚ) ^ e)

/-- Python slice `s[a:b]` for `0 ≤ a ≤ b` (clamped, never raising). -/
def pySlice (s : List Char) (a b : ℕ) : List Char := (s.drop a).take (b - a)

/-- The four fixed-offset field reads `float(hlp[i+2:i+6])`,
`float(hlp[i+9:i+13])`, `float(hlp[i+16:i+20])`, `float(hlp[i+23:i+27])`
from `get_voltages`; `none` as soon as one of them raises ValueError. -/
def parseFour (text : List Char) (i : ℕ) : Option (ℚ × ℚ × ℚ × ℚ) :=
  match pyFloatOf (pySlice text (i + 2) (i + 6)) with
  | none => none
  | some v1 =>
    match pyFloatOf (pySlice text (i + 9) (i + 13)) with
    | none => none
    | some v2 =>
      match pyFloatOf (pySlice text (i + 16) (i + 20)) with
      | none => none
      | some v3 =>
        match pyFloatOf (pySlice text (i + 23) (i + 27)) with
        | none => none
        | some v4 => some (v1, v2, v3, v4)

/-- The scanning loop of `get_voltages` over one decoded chunk: walk the text
left to right; at a newline, reading the next character raises IndexError
when the newline is the last character (the `except` clause abandons the
chunk); at a newline followed by the digit 4, attempt the four field reads
and abandon the chunk if any fails; otherwise keep scanning. -/
def scanAux (full : List Char) : List Char → ℕ → Option (ℚ × ℚ × ℚ × ℚ)
  | [], _ => none
  | c :: rest, i =>
    if c = '\n' then
      if h : i + 1 < full.length then
        if full.get ⟨i + 1, h⟩ = '4' then parseFour full i
        else scanAux full rest (i + 1)
      else none
    else scanAux full rest (i + 1)

/-- One extraction attempt of `get_voltages` on one decoded chunk. -/
def extract (text : List Char) : Option (ℚ × ℚ × ℚ × ℚ) := scanAux text text 0

/-- Spec-side marker test: position `i` holds a newline immediately followed
by the digit 4. -/
def isMarker (text : List Char) (i : ℕ) : Bool :=
  decide (i + 1 < text.length) && (text.getD i ' ' = '\n') && (text.getD (i + 1) ' ' = '4')

/-- Frame extraction as the spec describes it: locate the first position
whose character is a newline immediately followed by the digit 4, then parse
the four fixed-offset fields, succeeding only if all four parse. -/
def extractSpec (text : List Char) : Option (ℚ × ℚ × ℚ × ℚ) :=
  match (List.range text.length).find? (isMarker text) with
  | some i => parseFour text i
  | none => none

/-- The retry loop of `get_voltages` over a supply of decoded chunks: the
first chunk whose extraction succeeds provides the voltages; a failed chunk
is abandoned and the next chunk is requested. -/
def gvRun : List (List Char) → Option (ℚ × ℚ × ℚ × ℚ)
  | [] => none
  | c :: rest =>
    match extract c with
    | some q => some q
    | none => gvRun rest

/-- A numpy float64 value in the unit-conversion layer: finite real value,
positive or negative infinity, or NaN.  Finite values are exact reals;
rounding and overflow of float64 are not modelled. -/
inductive RF where
  | nan : RF
  | pinf : RF
  | ninf : RF
  | fin (x : ℝ) : RF

/-- numpy float64 addition on `RF`. -/
noncomputable def npAdd : RF → RF → RF
  | RF.nan, _ => RF.nan
  | _, RF.nan => RF.nan
  | RF.fin a, RF.fin b => RF.fin (a + b)
  | RF.pinf, RF.ninf => RF.nan
  | RF.ninf, RF.pinf => RF.nan
  | RF.pinf, _ => RF.pinf
  | RF.ninf, _ => RF.ninf
  | RF.fin _, RF.pinf => RF.pinf
  | RF.fin _, RF.ninf => RF.ninf

/-- numpy float64 subtraction on `RF`. -/
noncomputable def npSub : RF → RF → RF
  | RF.nan, _ => RF.nan
  | _, RF.nan => RF.nan
  | RF.fin a, RF.fin b => RF.fin (a - b)
  | RF.pinf, RF.pinf => RF.nan
  | RF.ninf, RF.ninf => RF.nan
  | RF.pinf, _ => RF.pinf
  | RF.ninf, _ => RF.ninf
  | RF.fin _, RF.pinf => RF.ninf
  | RF.fin _, RF.ninf => RF.pinf

/-- numpy float64 multiplication on `RF` (0 times infinity is NaN). -/
noncomputable def npMul : RF → RF → RF
  | RF.nan, _ => RF.nan
  | _, RF.nan => RF.nan
  | RF.fin a, RF.fin b => RF.fin (a * b)
  | RF.fin a, RF.pinf => if a = 0 then RF.nan else if 0 < a then RF.pinf else RF.ninf
  | RF.fin a, RF.ninf => if a = 0 then RF.nan else if 0 < a then RF.ninf else RF.pinf
  | RF.pinf, RF.fin b => if b = 0 then RF.nan else if 0 < b then RF.pinf else RF.ninf
  | RF.ninf, RF.fin b => if b = 0 then RF.nan else if 0 < b then RF.ninf else RF.pinf
  | RF.pinf, RF.pinf => RF.pinf
  | RF.pinf, RF.ninf => RF.ninf
  | RF.ninf, RF.pinf => RF.ninf
  | RF.ninf, RF.ninf => RF.pinf

/-- numpy float64 division on `RF`: a nonzero finite value divided by zero
gives a signed infinity with a RuntimeWarning (not an exception), 0/0 gives
NaN.  The sign of a float64 zero is not modelled; division by a zero
denominator uses the positive sign, which is the case arising below. -/
noncomputable def npDiv : RF → RF → RF
  | RF.nan, _ => RF.nan
  | _, RF.nan => RF.nan
  | RF.fin a, RF.fin b =>
    if b = 0 then (if a = 0 then RF.nan else if 0 < a then RF.pinf else RF.ninf)
    else RF.fin (a / b)
  | RF.fin _, RF.pinf => RF.fin 0
  | RF.fin _, RF.ninf => RF.fin 0
  | RF.pinf, RF.fin b => if 0 ≤ b then RF.pinf else RF.ninf
  | RF.ninf, RF.fin b => if 0 ≤ b then RF.ninf else RF.pinf
  | RF.pinf, RF.pinf => RF.nan
  | RF.pinf, RF.ninf => RF.nan
  | RF.ninf, RF.pinf => RF.nan
  | RF.ninf, RF.ninf => RF.nan

/-- numpy float64 natural power on `RF` (`hlp ** 2`, `hlp ** 3`). -/
noncomputable def npPowN : RF → ℕ → RF
  | _, 0 => RF.fin 1
  | RF.nan, _ + 1 => RF.nan
  | RF.fin a, n + 1 => RF.fin (a ^ (n + 1))
  | RF.pinf, _ + 1 => RF.pinf
  | RF.ninf, n + 1 => if (n + 1) % 2 = 0 then RF.pinf else RF.ninf

/-- `np.log` on `RF`: NaN on negative input (RuntimeWarning, not an
exception), -inf at zero, the real logarithm on positive finite input. -/
noncomputable def npLog : RF → RF
  | RF.nan => RF.nan
  | RF.pinf => RF.pinf
  | RF.ninf => RF.nan
  | RF.fin a => if a < 0 then RF.nan else if a = 0 then RF.ninf else RF.fin (Real.log a)

/-- `10 ** x` on `RF` (float64 overflow to inf for huge finite exponents is
not modelled; the finite case is the exact real power). -/
noncomputable def npTen : RF → RF
  | RF.nan => RF.nan
  | RF.pinf => RF.pinf
  | RF.ninf => RF.fin 0
  | RF.fin a => RF.fin ((10 : ℝ) ^ a)

/-- `T(R)` from the source: Steinhart–Hart conversion of a resistance. -/
noncomputable def Tnp (R : RF) : RF :=
  let A : ℝ := 3.354016e-3
  let B : ℝ := 2.460382e-4
  let C : ℝ := 3.405377e-6
  let D : ℝ := 1.034240e-7
  let R25 : ℝ := 1e5
  let hlp : RF := npLog (npDiv R (RF.fin R25))
  let TK : RF := npDiv (RF.fin 1)
    (npAdd (npAdd (npAdd (RF.fin A) (npMul (RF.fin B) hlp)) (npMul (RF.fin C) (npPowN hlp 2)))
      (npMul (RF.fin D) (npPowN hlp 3)))
  npSub TK (RF.fin 273.15)

/-- `convert(v_room, v_cryo, v_ICR, v_ICH)` from the source. -/
noncomputable def convertNp (v_room v_cryo v_ICR v_ICH : RF) : RF × RF × RF × RF :=
  let R0_ICR : ℝ := 1e5
  let R0_ICH : ℝ := 1e5
  let V_s : ℝ := 3.3
  let p_room := npTen (npSub (npMul v_room (RF.fin 3)) (RF.fin 10))
  let p_cryo := npTen (npSub (npMul v_cryo (RF.fin 3)) (RF.fin 10))
  let R_ICR := npMul (npDiv v_ICR (npSub (RF.fin V_s) v_ICR)) (RF.fin R0_ICR)
  let R_ICH := npMul (npDiv v_ICH (npSub (RF.fin V_s) v_ICH)) (RF.fin R0_ICH)
  (p_room, p_cryo, Tnp R_ICR, Tnp R_ICH)

/-- The Steinhart–Hart denominator with the spec's coefficients. -/
noncomputable def steinhartDen (x : ℝ) : ℝ :=
  3.354016e-3 + 2.460382e-4 * x + 3.405377e-6 * x ^ 2 + 1.034240e-7 * x ^ 3

/-- Pressure calibration as the spec states it: `p = 10^(3v - 10)`. -/
noncomputable def pressureSpec (v : ℝ) : ℝ := (10 : ℝ) ^ (3 * v - 10)

/-- Voltage-divider resistance as the spec states it:
`R = v / (V_s - v) * R0` with `V_s = 3.3`, `R0 = 1e5`. -/
noncomputable def resistanceSpec (v : ℝ) : ℝ := v / (3.3 - v) * 1e5

/-- Temperature as the spec states it: Steinhart–Hart with `x = ln(R/1e5)`,
`T_C = 1/(A + Bx + Cx^2 + Dx^3) - 273.15`. -/
noncomputable def temperatureSpec (v : ℝ) : ℝ :=
  1 / steinhartDen (Real.log (resistanceSpec v / 1e5)) - 273.15

/-- The four log channels (chamber, dewar, foreline, temperature files). -/
inductive Chan where
  | room : Chan
  | cryo : Chan
  | rough : Chan
  | temp : Chan
deriving DecidableEq

/-- File events of the main loop; the ℕ is the date embedded in the file
name (dates are totally ordered, encoded as naturals). -/
inductive Ev where
  | opn (d : ℕ) (c : Chan) : Ev
  | wr (d : ℕ) (c : Chan) : Ev
  | cls (d : ℕ) (c : Chan) : Ev
deriving DecidableEq

def chans : List Chan := [Chan.room, Chan.cryo, Chan.rough, Chan.temp]

/-- Opening the four files of one date (entering the `with` block). -/
def opens (d : ℕ) : List Ev := chans.map (Ev.opn d)

/-- Closing the four files of one date (leaving the `with` block). -/
def closes (d : ℕ) : List Ev := chans.map (Ev.cls d)

/-- The four writes of one logging cycle. -/
def writes (d : ℕ) : List Ev := chans.map (Ev.wr d)

/-- One inner-loop iteration of the main loop: observe the wall-clock date
`d`; if it equals the current rotation date, one cycle writes the four files
opened under that date; otherwise the `with` block is left (closing all four
files) and re-entered, opening four files named with the new date. -/
def iterEvents (cur d : ℕ) : List Ev :=
  if d = cur then writes cur else closes cur ++ opens d

/-- The rotation date after an iteration that observed date `d`. -/
def nextCur (cur d : ℕ) : ℕ := if d = cur then cur else d

/-- The rotation date at the start of iteration `n`, given the initial date
`d0` and the sequence `dates` of wall-clock dates observed per iteration. -/
def curAt (d0 : ℕ) (dates : ℕ → ℕ) : ℕ → ℕ
  | 0 => d0
  | n + 1 => nextCur (curAt d0 dates n) (dates n)

/-- A concrete date sequence crossing one day boundary, for witnesses. -/
def demoDates : ℕ → ℕ := fun m => min m 1

theorem le_listMax : ∀ (l : List ℚ) (a : ℚ), a ∈ l → a ≤ listMax l
  | [], a, ha => absurd ha (List.not_mem_nil a)
  | [x], a, ha => by
    rcases List.mem_singleton.mp ha with rfl
    exact le_rfl
  | x :: y :: xs, a, ha => by
    rcases List.mem_cons.mp ha with rfl | h
    · exact le_max_left _ _
    · exact le_trans (le_listMax (y :: xs) a h) (le_max_right _ _)

theorem listMin_le : ∀ (l : List ℚ) (a : ℚ), a ∈ l → listMin l ≤ a
  | [], a, ha => absurd ha (List.not_mem_nil a)
  | [x], a, ha => by
    rcases List.mem_singleton.mp ha with rfl
    exact le_rfl
  | x :: y :: xs, a, ha => by
    rcases List.mem_cons.mp ha with rfl | h
    · exact min_le_left _ _
    · exact le_trans (min_le_right _ _) (listMin_le (y :: xs) a h)

theorem getD_mem : ∀ (l : List ℚ) (n : ℕ), n < l.length → l.getD n 0 ∈ l
  | x :: xs, 0, _ => List.mem_cons_self x xs
  | x :: xs, n + 1, h =>
    List.mem_cons_of_mem x (getD_mem xs n (Nat.lt_of_succ_lt_succ h))

theorem mem_insertSorted (x a : ℚ) :
    ∀ (l : List ℚ), a ∈ insertSorted x l ↔ a = x ∨ a ∈ l
  | [] => by simp [insertSorted]
  | y :: ys => by
    by_cases hxy : x ≤ y
    · simp only [insertSorted, if_pos hxy, List.mem_cons]
    · simp only [insertSorted, if_neg hxy, List.mem_cons, mem_insertSorted x a ys]
      tauto

theorem length_insertSorted (x : ℚ) :
    ∀ (l : List ℚ), (insertSorted x l).length = l.length + 1
  | [] => rfl
  | y :: ys => by
    by_cases hxy : x ≤ y
    · simp [insertSorted, if_pos hxy]
    · simp [insertSorted, if_neg hxy, length_insertSorted x ys]

theorem length_sortQ : ∀ (l : List ℚ), (sortQ l).length = l.length
  | [] => rfl
  | x :: xs => by simp [sortQ, length_insertSorted, length_sortQ xs]

theorem mem_sortQ (a : ℚ) : ∀ (l : List ℚ), a ∈ sortQ l ↔ a ∈ l
  | [] => Iff.rfl
  | x :: xs => by
    simp only [sortQ, mem_insertSorted, List.mem_cons, mem_sortQ a xs]

theorem npMedian_mem_of_odd (l : List ℚ) (h : l.length % 2 = 1) : npMedian l ∈ l := by
  have hpos : 0 < l.length := by omega
  have hk : l.length / 2 < l.length := Nat.div_lt_self hpos one_lt_two
  rw [npMedian, if_pos h]
  exact (mem_sortQ _ l).mp (getD_mem (sortQ l) _ (by rw [length_sortQ]; exact hk))

theorem npMedian_bounds (l : List ℚ) (hne : l ≠ []) :
    listMin l ≤ npMedian l ∧ npMedian l ≤ listMax l := by
  have hpos : 0 < l.length := List.length_pos.mpr hne
  have hk2 : l.length / 2 < l.length := Nat.div_lt_self hpos one_lt_two
  rw [npMedian]
  by_cases h : l.length % 2 = 1
  · rw [if_pos h]
    have hm : (sortQ l).getD (l.length / 2) 0 ∈ l :=
      (mem_sortQ _ l).mp (getD_mem (sortQ l) _ (by rw [length_sortQ]; exact hk2))
    exact ⟨listMin_le _ _ hm, le_listMax _ _ hm⟩
  · rw [if_neg h]
    have hk1 : l.length / 2 - 1 < l.length := by omega
    have hm1 : (sortQ l).getD (l.length / 2 - 1) 0 ∈ l :=
      (mem_sortQ _ l).mp (getD_mem (sortQ l) _ (by rw [length_sortQ]; exact hk1))
    have hm2 : (sortQ l).getD (l.length / 2) 0 ∈ l :=
      (mem_sortQ _ l).mp (getD_mem (sortQ l) _ (by rw [length_sortQ]; exact hk2))
    constructor
    · have h1 := listMin_le _ _ hm1
      have h2 := listMin_le _ _ hm2
      linarith
    · have h1 := le_listMax _ _ hm1
      have h2 := le_listMax _ _ hm2
      linarith

theorem npMedian_singleton (a : ℚ) : npMedian [a] = a := by
  simp [npMedian, sortQ, insertSorted]

theorem filter_eq_eraseIdx (p : ℚ → Bool) :
    ∀ (l : List ℚ) (i : ℕ) (hi : i < l.length),
      p (l.get ⟨i, hi⟩) = false →
      (∀ (j : ℕ) (hj : j < l.length), j ≠ i → p (l.get ⟨j, hj⟩) = true) →
      l.filter p = l.eraseIdx i
  | x :: xs, 0, _, hx, hrest => by
    have hxs : ∀ a ∈ xs, p a = true := by
      intro a ha
      obtain ⟨⟨j, hj⟩, rfl⟩ := List.mem_iff_get.mp ha
      exact hrest (j + 1) (Nat.succ_lt_succ hj) (Nat.succ_ne_zero j)
    have hx0 : p x = false := hx
    simp [List.filter_cons, hx0, List.filter_eq_self.mpr hxs, List.eraseIdx]
  | x :: xs, i + 1, hi, hx, hrest => by
    have hpx : p x = true := hrest 0 (Nat.succ_pos _) (by omega)
    have ih := filter_eq_eraseIdx p xs i (Nat.lt_of_succ_lt_succ hi) hx
      (fun j hj hne => hrest (j + 1) (Nat.succ_lt_succ hj) (by omega))
    simp [List.filter_cons, hpx, List.eraseIdx, ih]

/-- Claim C1: for every nonempty sample list and tolerance `t`, `correct`
returns the arithmetic mean of all values when `max - min ≤ t`, and
otherwise the arithmetic mean of exactly those values whose absolute
deviation from the median of the whole sample list is strictly below `t`
(provided that kept subset is nonempty). -/
theorem correct_cases (vols : List ℚ) (t : ℚ) (hne : vols ≠ []) :
    (listMax vols - listMin vols ≤ t → correct vols t = some (QF.val (meanQ vols)))
    ∧ (t < listMax vols - listMin vols → goodData vols t ≠ [] →
        correct vols t = some (QF.val (meanQ (goodData vols t)))) := by
  obtain ⟨x, xs, rfl⟩ := List.exists_cons_of_ne_nil hne
  constructor
  · intro hle
    have hb : ¬ ptp (x :: xs) > t := not_lt.mpr hle
    rw [correct, if_neg hb, npMeanQ, if_neg (List.cons_ne_nil x xs)]
  · intro hgt hk
    have hb : ptp (x :: xs) > t := hgt
    rw [correct, if_pos hb, npMeanQ, if_neg hk]

/-- Claim C1 witness: a concrete consistent sample list, mean of all. -/
theorem correct_cases_witness :
    listMax [1, 1, 1] - listMin [1, 1, 1] ≤ (1 : ℚ) / 10
    ∧ correct [1, 1, 1] ((1 : ℚ) / 10) = some (QF.val (meanQ [1, 1, 1])) := by
  have h := (correct_cases [1, 1, 1] ((1 : ℚ) / 10) (by simp)).1
  exact ⟨by norm_num [listMax, listMin], h (by norm_num [listMax, listMin])⟩

/-- Claim C2, counterexample: on `[0, 0, 1, 1]` with tolerance `1/10` the
outlier branch activates and every value deviates from the median `1/2` by
at least the tolerance, so nothing is kept; `correct` then returns NaN (the
numpy mean of an empty selection) rather than raising any error. -/
theorem correct_nan_counterexample :
    correct [0, 0, 1, 1] ((1 : ℚ) / 10) = some QF.nan := by
  norm_num [correct, ptp, listMax, listMin, npMeanQ, goodData, npMedian, sortQ,
    insertSorted, List.filter_cons, decide_eq_true_eq, abs_lt, List.cons_ne_nil]

/-- Claim C2 (amended): whenever the outlier branch of `correct` activates
and the kept subset is empty, `correct` returns the scalar NaN; no distinct
error is raised and no zero is returned. -/
theorem correct_empty_keep_nan (vols : List ℚ) (t : ℚ) (hne : vols ≠ [])
    (hr : t < ptp vols) (hk : goodData vols t = []) :
    correct vols t = some QF.nan := by
  obtain ⟨x, xs, rfl⟩ := List.exists_cons_of_ne_nil hne
  rw [correct, if_pos hr, hk, npMeanQ, if_pos rfl]

/-- Claim C2 witness: concrete input reaching the empty-keep NaN case. -/
theorem correct_empty_keep_nan_witness :
    ([0, 0, 2, 2] : List ℚ) ≠ []
    ∧ (1 : ℚ) / 2 < ptp [0, 0, 2, 2]
    ∧ goodData [0, 0, 2, 2] ((1 : ℚ) / 2) = []
    ∧ correct [0, 0, 2, 2] ((1 : ℚ) / 2) = some QF.nan := by
  have h1 : ([0, 0, 2, 2] : List ℚ) ≠ [] := by simp
  have h2 : (1 : ℚ) / 2 < ptp [0, 0, 2, 2] := by
    norm_num [ptp, listMax, listMin]
  have h3 : goodData [0, 0, 2, 2] ((1 : ℚ) / 2) = [] := by
    norm_num [goodData, npMedian, sortQ, insertSorted, List.filter_cons,
      decide_eq_true_eq, abs_lt]
  exact ⟨h1, h2, h3, correct_empty_keep_nan [0, 0, 2, 2] ((1 : ℚ) / 2) h1 h2 h3⟩

/-- The sample list used to refute claim C8: four consistent values and one
injected outlier `10`. -/
def outlierSamples : List ℚ := [0, 3/50, 1/10, 1/10, 10]

/-- Claim C8, counterexample: in `outlierSamples` with tolerance `1/10`,
exactly one entry (the last, `10`) deviates from the median of the remaining
values by more than the tolerance — it is the unique injected outlier — yet
`correct` does not return the mean of the remaining values: the filter also
drops the legitimate sample `0`, whose deviation from the median of the full
list equals the tolerance exactly. -/
theorem single_outlier_counterexample :
    ((1 : ℚ) / 10 < |outlierSamples.getD 4 0 - npMedian (outlierSamples.eraseIdx 4)|)
    ∧ ¬ ((1 : ℚ) / 10 < |outlierSamples.getD 0 0 - npMedian (outlierSamples.eraseIdx 0)|)
    ∧ ¬ ((1 : ℚ) / 10 < |outlierSamples.getD 1 0 - npMedian (outlierSamples.eraseIdx 1)|)
    ∧ ¬ ((1 : ℚ) / 10 < |outlierSamples.getD 2 0 - npMedian (outlierSamples.eraseIdx 2)|)
    ∧ ¬ ((1 : ℚ) / 10 < |outlierSamples.getD 3 0 - npMedian (outlierSamples.eraseIdx 3)|)
    ∧ correct outlierSamples ((1 : ℚ) / 10)
        ≠ some (QF.val (meanQ (outlierSamples.eraseIdx 4))) := by
  norm_num [outlierSamples, correct, ptp, listMax, listMin, npMeanQ, goodData,
    npMedian, sortQ, insertSorted, meanQ, List.filter_cons, decide_eq_true_eq,
    abs_lt, lt_abs, List.cons_ne_nil, List.eraseIdx]

/-- Claim C8 (amended): for a sample list containing one outlier whose
deviation from the median of the full list strictly exceeds the (nonnegative)
tolerance, while every other value deviates from that median by strictly less
than the tolerance, `correct` excludes exactly the outlier and returns the
arithmetic mean of the remaining values. -/
theorem correct_excludes_single_outlier (l : List ℚ) (t : ℚ) (i : Fin l.length)
    (ht : 0 ≤ t)
    (hrest : ∀ j : Fin l.length, j ≠ i → |l.get j - npMedian l| < t)
    (hout : t < |l.get i - npMedian l|) :
    correct l t = some (QF.val (meanQ (l.eraseIdx i.val))) := by
  have hne : l ≠ [] := by
    intro h
    exact absurd i.isLt (by simp [h])
  have hmem : l.get i ∈ l := List.get_mem l i.val i.isLt
  obtain ⟨hmin, hmax⟩ := npMedian_bounds l hne
  have habs : |l.get i - npMedian l| ≤ listMax l - listMin l := by
    rw [abs_sub_le_iff]
    constructor
    · have := le_listMax l _ hmem
      linarith
    · have := listMin_le l _ hmem
      linarith
  have hptp : ptp l > t := lt_of_lt_of_le hout habs
  have hlen2 : 2 ≤ l.length := by
    by_contra hcon
    have h1 : l.length = 1 := by
      have := i.isLt
      omega
    obtain ⟨a, ha⟩ := List.length_eq_one.mp h1
    subst ha
    obtain ⟨iv, hiv⟩ := i
    have hiv0 : iv = 0 := by omega
    subst hiv0
    rw [npMedian_singleton] at hout
    simp at hout
    linarith
  have hfe : goodData l t = l.eraseIdx i.val := by
    apply filter_eq_eraseIdx _ l i.val i.isLt
    · simp only [decide_eq_false_iff_not, not_lt]
      exact le_of_lt hout
    · intro j hj hne'
      simp only [decide_eq_true_eq]
      exact hrest ⟨j, hj⟩ (by simpa [Fin.ext_iff] using hne')
  have hkne : l.eraseIdx i.val ≠ [] := by
    intro hnil
    have hlen' := congrArg List.length hnil
    rw [List.length_eraseIdx, if_pos i.isLt] at hlen'
    simp at hlen'
    omega
  obtain ⟨x, xs, rfl⟩ := List.exists_cons_of_ne_nil hne
  rw [correct, if_pos hptp, hfe, npMeanQ, if_neg hkne]

/-- Claim C8 witness: `[1, 1, 1, 5]`, tolerance `1/2`, outlier at index 3. -/
theorem correct_excludes_single_outlier_witness :
    correct [1, 1, 1, 5] ((1 : ℚ) / 2)
      = some (QF.val (meanQ (([1, 1, 1, 5] : List ℚ).eraseIdx 3))) := by
  have hmed : npMedian [1, 1, 1, 5] = 1 := by
    norm_num [npMedian, sortQ, insertSorted]
  refine correct_excludes_single_outlier [1, 1, 1, 5] ((1 : ℚ) / 2)
    ⟨3, by norm_num⟩ (by norm_num) ?_ ?_
  · intro j hj
    fin_cases j
    · rw [hmed]; norm_num
    · rw [hmed]; norm_num
    · rw [hmed]; norm_num
    · simp at hj
  · rw [hmed]; norm_num

/-- Claim C10: for a sample list of odd length (such as the program's
default of 5 samples per cycle) and strictly positive tolerance, the kept
subset of the outlier branch is never empty — the median of an odd-length
list is one of its elements and deviates from itself by `0 < t` — so
`correct` always returns an ordinary value, never the empty-mean NaN. -/
theorem correct_odd_defined (l : List ℚ) (t : ℚ) (hodd : Odd l.length)
    (ht : 0 < t) :
    goodData l t ≠ [] ∧ ∃ q : ℚ, correct l t = some (QF.val q) := by
  have h1 : l.length % 2 = 1 := Nat.odd_iff.mp hodd
  have hne : l ≠ [] := by
    intro h
    rw [h] at h1
    simp at h1
  have hmed : npMedian l ∈ l := npMedian_mem_of_odd l h1
  have hgd : npMedian l ∈ goodData l t := by
    rw [goodData]
    refine List.mem_filter.mpr ⟨hmed, ?_⟩
    simp only [decide_eq_true_eq, sub_self, abs_zero]
    exact ht
  have hgdne : goodData l t ≠ [] := by
    intro h
    rw [h] at hgd
    exact absurd hgd (List.not_mem_nil _)
  refine ⟨hgdne, ?_⟩
  obtain ⟨x, xs, rfl⟩ := List.exists_cons_of_ne_nil hne
  by_cases hb : ptp (x :: xs) > t
  · exact ⟨meanQ (goodData (x :: xs) t),
      by rw [correct, if_pos hb, npMeanQ, if_neg hgdne]⟩
  · exact ⟨meanQ (x :: xs),
      by rw [correct, if_neg hb, npMeanQ, if_neg (List.cons_ne_nil x xs)]⟩

/-- Claim C10 witness: the odd-length list `[1, 2, 3]` with tolerance 1/10. -/
theorem correct_odd_defined_witness :
    goodData [1, 2, 3] ((1 : ℚ) / 10) ≠ []
    ∧ correct [1, 2, 3] ((1 : ℚ) / 10) = some (QF.val 2) := by
  refine ⟨(correct_odd_defined [1, 2, 3] ((1 : ℚ) / 10)
    (Nat.odd_iff.mpr (by norm_num)) (by norm_num)).1, ?_⟩
  norm_num [correct, ptp, listMax, listMin, npMeanQ, goodData, npMedian, sortQ,
    insertSorted, meanQ, List.filter_cons, decide_eq_true_eq, abs_lt,
    List.cons_ne_nil]

theorem getD_eq_get_of_lt :
    ∀ (l : List Char) (n : ℕ) (h : n < l.length) (d : Char), l.getD n d = l.get ⟨n, h⟩
  | _ :: _, 0, _, _ => rfl
  | _ :: xs, n + 1, h, d => getD_eq_get_of_lt xs n (Nat.lt_of_succ_lt_succ h) d

theorem drop_cons_of_lt :
    ∀ (l : List Char) (n : ℕ) (h : n < l.length),
      l.drop n = l.get ⟨n, h⟩ :: l.drop (n + 1)
  | _ :: _, 0, _ => rfl
  | _ :: xs, n + 1, h => drop_cons_of_lt xs n (Nat.lt_of_succ_lt_succ h)

theorem scanAux_eq_find :
    ∀ (suf : List Char) (full : List Char) (i : ℕ), full.drop i = suf →
      scanAux full suf i =
        (match (List.range' i suf.length).find? (isMarker full) with
          | some j => parseFour full j
          | none => none)
  | [], full, i, _ => by
    rw [scanAux]
    rfl
  | c :: rest, full, i, hdrop => by
    have hi : i < full.length := by
      by_contra hge
      rw [List.drop_eq_nil_of_le (Nat.le_of_not_lt hge)] at hdrop
      exact List.noConfusion hdrop
    have hcons := drop_cons_of_lt full i hi
    rw [hdrop] at hcons
    have hget : full.get ⟨i, hi⟩ = c := (List.cons.injEq _ _ _ _ ▸ hcons.symm).1
    have hrest : full.drop (i + 1) = rest := (List.cons.injEq _ _ _ _ ▸ hcons.symm).2
    have hlen : (c :: rest).length = rest.length + 1 := rfl
    rw [hlen, List.range'_succ]
    by_cases hc : c = '\n'
    · by_cases h1 : i + 1 < full.length
      · by_cases h4 : full.get ⟨i + 1, h1⟩ = '4'
        · have hm : isMarker full i = true := by
            rw [isMarker]
            simp only [Bool.and_eq_true, decide_eq_true_eq]
            refine ⟨⟨h1, ?_⟩, ?_⟩
            · rw [getD_eq_get_of_lt full i hi, hget, hc]
            · rw [getD_eq_get_of_lt full (i + 1) h1, h4]
          rw [scanAux, if_pos hc, dif_pos h1, if_pos h4,
            List.find?_cons_of_pos _ hm]
        · have hm : ¬ isMarker full i = true := by
            intro hmm
            rw [isMarker] at hmm
            simp only [Bool.and_eq_true, decide_eq_true_eq] at hmm
            rw [getD_eq_get_of_lt full (i + 1) h1] at hmm
            exact h4 hmm.2
          rw [scanAux, if_pos hc, dif_pos h1, if_neg h4,
            List.find?_cons_of_neg _ hm]
          exact scanAux_eq_find rest full (i + 1) hrest
      · have hrnil : rest = [] := by
          rw [← hrest]
          exact List.drop_eq_nil_of_le (Nat.le_of_not_lt h1)
        have hm : ¬ isMarker full i = true := by
          rw [isMarker]
          simp [h1]
        subst hrnil
        rw [scanAux, if_pos hc, dif_neg h1, List.find?_cons_of_neg _ hm]
        rfl
    · have hm : ¬ isMarker full i = true := by
        intro hmm
        rw [isMarker] at hmm
        simp only [Bool.and_eq_true, decide_eq_true_eq] at hmm
        rw [getD_eq_get_of_lt full i hi, hget] at hmm
        exact hc hmm.1.2
      rw [scanAux, if_neg hc, List.find?_cons_of_neg _ hm]
      exact scanAux_eq_find rest full (i + 1) hrest

theorem extract_eq_extractSpec (text : List Char) : extract text = extractSpec text := by
  have h := scanAux_eq_find text text 0 (List.drop_zero text)
  rw [extract, extractSpec, List.range_eq_range']
  exact h

/-- Claim C5: frame extraction agrees everywhere with its specification —
locate the first position holding a newline immediately followed by the
digit 4, parse the four channel fields from the half-open character ranges
i+2..i+6, i+9..i+13, i+16..i+20, i+23..i+27, use only that first marker and
return a quadruple exactly when all four fields parse — and a chunk on which
extraction fails is abandoned, the next chunk being consulted instead. -/
theorem frame_extraction_refines_spec (text : List Char) (chunks : List (List Char)) :
    extract text = extractSpec text
    ∧ gvRun (text :: chunks) =
        (match extract text with
          | some q => some q
          | none => gvRun chunks) :=
  ⟨extract_eq_extractSpec text, rfl⟩

/-- Claim C6, counterexample: on the spec's example buffer
`"\n4123 4567 8901 2345"` frame extraction does not succeed: the cryo field
slice (characters 9 to 13) reads `"7 89"` and the ICH slice is empty, and
neither parses as a float, so the chunk is abandoned. -/
theorem frame_buffer_counterexample :
    extract (("\n4123 4567 8901 2345").toList) = none := by decide

/-- Claim C6 (amended): the spec's example buffer `"\n4123 4567 8901 2345"`
is rejected and a further chunk is requested; a frame whose four-character
numeric fields sit exactly at offsets +2, +9, +16, +23 from the marker is
extracted to its four parsed floats; a buffer with no newline-then-4 marker
yields no value and the next chunk is consulted. -/
theorem frame_buffer_amended :
    extract (("\n41.23   4.56   7.89   0.12").toList)
      = some (123/100, 114/25, 789/100, 3/25)
    ∧ extract (("\n4123 4567 8901 2345").toList) = none
    ∧ gvRun [("\n4123 4567 8901 2345").toList, ("\n41.23   4.56   7.89   0.12").toList]
      = some (123/100, 114/25, 789/100, 3/25)
    ∧ extract (("1.23 4.56").toList) = none
    ∧ gvRun [("1.23 4.56").toList] = none := by
  have hgood : extract (("\n41.23   4.56   7.89   0.12").toList)
      = some (123/100, 114/25, 789/100, 3/25) := by
    have hraw : extract (("\n41.23   4.56   7.89   0.12").toList)
        = some ((1 : ℚ) * ((1 : ℚ) + (23 : ℚ) / (10 : ℚ) ^ 2) * (10 : ℚ) ^ (0 : ℤ),
            (1 : ℚ) * ((4 : ℚ) + (56 : ℚ) / (10 : ℚ) ^ 2) * (10 : ℚ) ^ (0 : ℤ),
            (1 : ℚ) * ((7 : ℚ) + (89 : ℚ) / (10 : ℚ) ^ 2) * (10 : ℚ) ^ (0 : ℤ),
            (1 : ℚ) * ((0 : ℚ) + (12 : ℚ) / (10 : ℚ) ^ 2) * (10 : ℚ) ^ (0 : ℤ)) := rfl
    rw [hraw]
    norm_num
  have hbad : extract (("\n4123 4567 8901 2345").toList) = none := by decide
  have hnom : extract (("1.23 4.56").toList) = none := by decide
  refine ⟨hgood, hbad, ?_, hnom, ?_⟩
  · rw [gvRun, hbad, gvRun, hgood]
  · rw [gvRun, hnom, gvRun]

theorem npAdd_fin (a b : ℝ) : npAdd (RF.fin a) (RF.fin b) = RF.fin (a + b) := rfl

theorem npAdd_fin_pinf (a : ℝ) : npAdd (RF.fin a) RF.pinf = RF.pinf := rfl

theorem npAdd_pinf_pinf : npAdd RF.pinf RF.pinf = RF.pinf := rfl

theorem npAdd_fin_nan (a : ℝ) : npAdd (RF.fin a) RF.nan = RF.nan := rfl

theorem npAdd_nan_nan : npAdd RF.nan RF.nan = RF.nan := rfl

theorem npSub_fin (a b : ℝ) : npSub (RF.fin a) (RF.fin b) = RF.fin (a - b) := rfl

theorem npSub_nan_fin (b : ℝ) : npSub RF.nan (RF.fin b) = RF.nan := rfl

theorem npMul_fin (a b : ℝ) : npMul (RF.fin a) (RF.fin b) = RF.fin (a * b) := rfl

theorem npMul_fin_nan (a : ℝ) : npMul (RF.fin a) RF.nan = RF.nan := rfl

theorem npMul_fin_pinf_of_pos (a : ℝ) (ha : 0 < a) :
    npMul (RF.fin a) RF.pinf = RF.pinf := by
  rw [npMul, if_neg ha.ne', if_pos ha]

theorem npMul_pinf_fin_of_pos (b : ℝ) (hb : 0 < b) :
    npMul RF.pinf (RF.fin b) = RF.pinf := by
  rw [npMul, if_neg hb.ne', if_pos hb]

theorem npDiv_fin_of_ne (a b : ℝ) (hb : b ≠ 0) :
    npDiv (RF.fin a) (RF.fin b) = RF.fin (a / b) := by
  rw [npDiv, if_neg hb]

theorem npDiv_fin_zero_of_pos (a : ℝ) (ha : 0 < a) :
    npDiv (RF.fin a) (RF.fin 0) = RF.pinf := by
  rw [npDiv, if_pos rfl, if_neg ha.ne', if_pos ha]

theorem npDiv_pinf_fin_of_nonneg (b : ℝ) (hb : 0 ≤ b) :
    npDiv RF.pinf (RF.fin b) = RF.pinf := by
  rw [npDiv, if_pos hb]

theorem npDiv_fin_pinf (a : ℝ) : npDiv (RF.fin a) RF.pinf = RF.fin 0 := rfl

theorem npDiv_fin_nan (a : ℝ) : npDiv (RF.fin a) RF.nan = RF.nan := rfl

theorem npPowN_fin_two (a : ℝ) : npPowN (RF.fin a) 2 = RF.fin (a ^ 2) := rfl

theorem npPowN_fin_three (a : ℝ) : npPowN (RF.fin a) 3 = RF.fin (a ^ 3) := rfl

theorem npPowN_pinf_two : npPowN RF.pinf 2 = RF.pinf := rfl

theorem npPowN_pinf_three : npPowN RF.pinf 3 = RF.pinf := rfl

theorem npPowN_nan_two : npPowN RF.nan 2 = RF.nan := rfl

theorem npPowN_nan_three : npPowN RF.nan 3 = RF.nan := rfl

theorem npLog_pinf : npLog RF.pinf = RF.pinf := rfl

theorem npLog_fin_of_pos (a : ℝ) (ha : 0 < a) :
    npLog (RF.fin a) = RF.fin (Real.log a) := by
  rw [npLog, if_neg (not_lt.mpr ha.le), if_neg ha.ne']

theorem npLog_fin_of_neg (a : ℝ) (ha : a < 0) : npLog (RF.fin a) = RF.nan := by
  rw [npLog, if_pos ha]

theorem npTen_fin (a : ℝ) : npTen (RF.fin a) = RF.fin ((10 : ℝ) ^ a) := rfl

/-- Evaluation of the source temperature conversion on a positive finite
resistance whose Steinhart–Hart denominator does not vanish. -/
theorem Tnp_fin_of_pos (R : ℝ) (hR : 0 < R)
    (hden : steinhartDen (Real.log (R / 1e5)) ≠ 0) :
    Tnp (RF.fin R) = RF.fin (1 / steinhartDen (Real.log (R / 1e5)) - 273.15) := by
  have h5 : (1e5 : ℝ) ≠ 0 := by norm_num
  have hpos : 0 < R / 1e5 := by positivity
  rw [Tnp]
  rw [npDiv_fin_of_ne _ _ h5, npLog_fin_of_pos _ hpos, npPowN_fin_two,
    npPowN_fin_three, npMul_fin, npMul_fin, npMul_fin, npAdd_fin, npAdd_fin,
    npAdd_fin]
  rw [show (3.354016e-3 : ℝ) + 2.460382e-4 * Real.log (R / 1e5)
      + 3.405377e-6 * Real.log (R / 1e5) ^ 2 + 1.034240e-7 * Real.log (R / 1e5) ^ 3
      = steinhartDen (Real.log (R / 1e5)) from rfl]
  rw [npDiv_fin_of_ne _ _ hden, npSub_fin]

/-- The source temperature conversion maps an infinite resistance to the
ordinary value -273.15 (absolute zero), with no error: 1/inf is 0. -/
theorem Tnp_pinf : Tnp RF.pinf = RF.fin (-273.15) := by
  rw [Tnp]
  rw [npDiv_pinf_fin_of_nonneg _ (by norm_num), npLog_pinf, npPowN_pinf_two,
    npPowN_pinf_three, npMul_fin_pinf_of_pos _ (by norm_num),
    npMul_fin_pinf_of_pos _ (by norm_num), npMul_fin_pinf_of_pos _ (by norm_num),
    npAdd_fin_pinf, npAdd_pinf_pinf, npAdd_pinf_pinf, npDiv_fin_pinf, npSub_fin]
  norm_num

/-- The source temperature conversion maps a negative finite resistance to
NaN (log of a negative argument), silently propagated through every
subsequent operation. -/
theorem Tnp_fin_of_neg (R : ℝ) (hR : R < 0) : Tnp (RF.fin R) = RF.nan := by
  have h5 : (1e5 : ℝ) ≠ 0 := by norm_num
  have hneg : R / 1e5 < 0 := div_neg_of_neg_of_pos hR (by norm_num)
  rw [Tnp]
  rw [npDiv_fin_of_ne _ _ h5, npLog_fin_of_neg _ hneg, npPowN_nan_two,
    npPowN_nan_three, npMul_fin_nan, npMul_fin_nan, npMul_fin_nan,
    npAdd_fin_nan, npAdd_nan_nan, npAdd_nan_nan, npDiv_fin_nan, npSub_nan_fin]

/-- Evaluation of the source pressure path on a finite voltage. -/
theorem pressure_path (v : ℝ) :
    npTen (npSub (npMul (RF.fin v) (RF.fin 3)) (RF.fin 10)) = RF.fin (pressureSpec v) := by
  rw [npMul_fin, npSub_fin, npTen_fin, pressureSpec, mul_comm v 3]

/-- Claim C3: on every input quadruple whose temperature channels carry a
voltage strictly between 0 and the supply voltage 3.3 (so the derived
resistance is positive) and whose Steinhart–Hart denominator does not
vanish, `convert` returns exactly the pressures `10^(3v-10)` and the
temperatures given by the voltage-divider resistance and the Steinhart–Hart
equation with the spec's coefficients. -/
theorem convert_formulas (vr vc vi vh : ℝ)
    (hi0 : 0 < vi) (hi3 : vi < 3.3) (hh0 : 0 < vh) (hh3 : vh < 3.3)
    (hdi : steinhartDen (Real.log (resistanceSpec vi / 1e5)) ≠ 0)
    (hdh : steinhartDen (Real.log (resistanceSpec vh / 1e5)) ≠ 0) :
    convertNp (RF.fin vr) (RF.fin vc) (RF.fin vi) (RF.fin vh) =
      (RF.fin (pressureSpec vr), RF.fin (pressureSpec vc),
        RF.fin (temperatureSpec vi), RF.fin (temperatureSpec vh)) := by
  have hsubi : (3.3 : ℝ) - vi ≠ 0 := by
    have : (0 : ℝ) < 3.3 - vi := by linarith
    exact this.ne'
  have hsubh : (3.3 : ℝ) - vh ≠ 0 := by
    have : (0 : ℝ) < 3.3 - vh := by linarith
    exact this.ne'
  have hRi : 0 < vi / (3.3 - vi) * 1e5 := by
    have h1 : (0 : ℝ) < 3.3 - vi := by linarith
    positivity
  have hRh : 0 < vh / (3.3 - vh) * 1e5 := by
    have h1 : (0 : ℝ) < 3.3 - vh := by linarith
    positivity
  rw [resistanceSpec] at hdi hdh
  rw [convertNp]
  simp only [npMul_fin, npSub_fin]
  rw [npDiv_fin_of_ne _ _ hsubi, npDiv_fin_of_ne _ _ hsubh]
  simp only [npMul_fin, npTen_fin]
  rw [Tnp_fin_of_pos _ hRi hdi, Tnp_fin_of_pos _ hRh hdh]
  rw [temperatureSpec, temperatureSpec, resistanceSpec, resistanceSpec,
    pressureSpec, pressureSpec, mul_comm vr 3, mul_comm vc 3]

/-- Claim C3 witness: at `v_ICR = v_ICH = 1.65` the divider gives exactly
`R = 1e5` and the conversion matches the spec formulas. -/
theorem convert_formulas_witness :
    convertNp (RF.fin 0) (RF.fin 0) (RF.fin 1.65) (RF.fin 1.65) =
      (RF.fin (pressureSpec 0), RF.fin (pressureSpec 0),
        RF.fin (temperatureSpec 1.65), RF.fin (temperatureSpec 1.65)) := by
  have h1 : resistanceSpec 1.65 / 1e5 = 1 := by
    rw [resistanceSpec]
    norm_num
  have hd : steinhartDen (Real.log (resistanceSpec 1.65 / 1e5)) ≠ 0 := by
    rw [h1, Real.log_one, steinhartDen]
    norm_num
  exact convert_formulas 0 0 1.65 1.65 (by norm_num) (by norm_num) (by norm_num)
    (by norm_num) hd hd

/-- Claim C4, counterexample: `convert` never raises.  At `v_ICR = 3.3` the
divider denominator is zero, numpy yields an infinite resistance, and the
conversion silently returns the ordinary reading `T_ICR = -273.15`; at
`v_ICH = 4` the derived resistance is negative and the conversion silently
returns `T_ICH = NaN`.  No error interrupts either computation. -/
theorem convert_counterexample_silent :
    (convertNp (RF.fin 1) (RF.fin 1) (RF.fin 3.3) (RF.fin 4)).2.2.1 = RF.fin (-273.15)
    ∧ (convertNp (RF.fin 1) (RF.fin 1) (RF.fin 3.3) (RF.fin 4)).2.2.2 = RF.nan := by
  constructor
  · show Tnp (npMul (npDiv (RF.fin 3.3) (npSub (RF.fin 3.3) (RF.fin 3.3))) (RF.fin 1e5))
      = RF.fin (-273.15)
    rw [npSub_fin, show (3.3 : ℝ) - 3.3 = 0 from by norm_num,
      npDiv_fin_zero_of_pos _ (by norm_num), npMul_pinf_fin_of_pos _ (by norm_num),
      Tnp_pinf]
  · show Tnp (npMul (npDiv (RF.fin 4) (npSub (RF.fin 3.3) (RF.fin 4))) (RF.fin 1e5))
      = RF.nan
    rw [npSub_fin, npDiv_fin_of_ne _ _ (by norm_num), npMul_fin]
    refine Tnp_fin_of_neg _ ?_
    have h1 : (4 : ℝ) / (3.3 - 4) < 0 := by
      apply div_neg_of_pos_of_neg (by norm_num)
      norm_num
    have h2 : (0 : ℝ) < 1e5 := by norm_num
    exact mul_neg_of_neg_of_pos h1 h2

/-- Claim C4 (amended): `convert` is a straight-line total computation with
no error path: for every finite pressure-channel input, at `v_ICR = 3.3`
(zero divider denominator) it silently returns the inf-derived ordinary
value `T_ICR = -273.15`, and at `v_ICH = 4` (negative derived resistance,
logarithm of a negative number) it silently returns `T_ICH = NaN`; neither
condition is detected or signalled. -/
theorem convert_silent_propagation (vr vc : ℝ) :
    (convertNp (RF.fin vr) (RF.fin vc) (RF.fin 3.3) (RF.fin 4)).2.2.1 = RF.fin (-273.15)
    ∧ (convertNp (RF.fin vr) (RF.fin vc) (RF.fin 3.3) (RF.fin 4)).2.2.2 = RF.nan := by
  constructor
  · show Tnp (npMul (npDiv (RF.fin 3.3) (npSub (RF.fin 3.3) (RF.fin 3.3))) (RF.fin 1e5))
      = RF.fin (-273.15)
    rw [npSub_fin, show (3.3 : ℝ) - 3.3 = 0 from by norm_num,
      npDiv_fin_zero_of_pos _ (by norm_num), npMul_pinf_fin_of_pos _ (by norm_num),
      Tnp_pinf]
  · show Tnp (npMul (npDiv (RF.fin 4) (npSub (RF.fin 3.3) (RF.fin 4))) (RF.fin 1e5))
      = RF.nan
    rw [npSub_fin, npDiv_fin_of_ne _ _ (by norm_num), npMul_fin]
    refine Tnp_fin_of_neg _ ?_
    have h1 : (4 : ℝ) / (3.3 - 4) < 0 := by
      apply div_neg_of_pos_of_neg (by norm_num)
      norm_num
    have h2 : (0 : ℝ) < 1e5 := by norm_num
    exact mul_neg_of_neg_of_pos h1 h2

/-- Evaluation of the source conversion temperature path at the voltage
1.65, where the divider resistance is exactly `R25 = 1e5` and `x = 0`. -/
theorem Tnp_at_R25 :
    Tnp (npMul (npDiv (RF.fin 1.65) (npSub (RF.fin 3.3) (RF.fin 1.65))) (RF.fin 1e5))
      = RF.fin (1 / (3.354016e-3 : ℝ) - 273.15) := by
  have hx : (1.65 : ℝ) / (3.3 - 1.65) * 1e5 / 1e5 = 1 := by norm_num
  have hpos : (0 : ℝ) < 1.65 / (3.3 - 1.65) * 1e5 := by norm_num
  have hden : steinhartDen (Real.log ((1.65 : ℝ) / (3.3 - 1.65) * 1e5 / 1e5)) ≠ 0 := by
    rw [hx, Real.log_one, steinhartDen]
    norm_num
  rw [npSub_fin, npDiv_fin_of_ne _ _ (by norm_num), npMul_fin,
    Tnp_fin_of_pos _ hpos hden, hx, Real.log_one, steinhartDen]
  norm_num

/-- Evaluation of the source conversion pressure path at the voltage 3.5. -/
theorem pressure_at_35 :
    npTen (npSub (npMul (RF.fin 3.5) (RF.fin 3)) (RF.fin 10))
      = RF.fin ((10 : ℝ) ^ (0.5 : ℝ)) := by
  rw [npMul_fin, npSub_fin, show (3.5 : ℝ) * 3 - 10 = 0.5 from by norm_num, npTen_fin]

/-- Claim C7, counterexample: at the input where the divider resistance is
exactly `R25` the temperature computed by `convert` is `1/A - 273.15`, which
is greater than 24 degrees Celsius — approximately +25.0, not the claimed
approximately -25.0. -/
theorem temp_at_R25_counterexample :
    (convertNp (RF.fin 3.5) (RF.fin 3.5) (RF.fin 1.65) (RF.fin 1.65)).2.2.1
      = RF.fin (1 / (3.354016e-3 : ℝ) - 273.15)
    ∧ (24 : ℝ) < 1 / (3.354016e-3 : ℝ) - 273.15 := by
  constructor
  · show Tnp (npMul (npDiv (RF.fin 1.65) (npSub (RF.fin 3.3) (RF.fin 1.65))) (RF.fin 1e5))
      = RF.fin (1 / (3.354016e-3 : ℝ) - 273.15)
    exact Tnp_at_R25
  · norm_num

/-- Claim C7 (amended): for `v_room = 3.5` the computed pressure is
`10^(3*3.5-10) = 10^0.5 ≈ 3.162`, and for `v_ICR` with divider resistance
exactly `R25` (voltage 1.65) the computed temperature is `1/A - 273.15`,
approximately +25.0 degrees Celsius. -/
theorem convert_reference_points :
    (convertNp (RF.fin 3.5) (RF.fin 3.5) (RF.fin 1.65) (RF.fin 1.65)).1
      = RF.fin ((10 : ℝ) ^ (0.5 : ℝ))
    ∧ |(10 : ℝ) ^ (0.5 : ℝ) - 3.162| < 1 / 500
    ∧ (convertNp (RF.fin 3.5) (RF.fin 3.5) (RF.fin 1.65) (RF.fin 1.65)).2.2.1
      = RF.fin (1 / (3.354016e-3 : ℝ) - 273.15)
    ∧ |1 / (3.354016e-3 : ℝ) - 273.15 - 25| < 1 / 10000 := by
  refine ⟨?_, ?_, ?_, ?_⟩
  · show npTen (npSub (npMul (RF.fin 3.5) (RF.fin 3)) (RF.fin 10))
      = RF.fin ((10 : ℝ) ^ (0.5 : ℝ))
    exact pressure_at_35
  · have hs : (10 : ℝ) ^ (0.5 : ℝ) = Real.sqrt 10 := by
      rw [show (0.5 : ℝ) = 1 / 2 from by norm_num, ← Real.sqrt_eq_rpow]
    have h1 : Real.sqrt 10 * Real.sqrt 10 = 10 := Real.mul_self_sqrt (by norm_num)
    have h2 : (0 : ℝ) ≤ Real.sqrt 10 := Real.sqrt_nonneg 10
    rw [hs, abs_lt]
    constructor
    · nlinarith
    · nlinarith
  · show Tnp (npMul (npDiv (RF.fin 1.65) (npSub (RF.fin 3.3) (RF.fin 1.65))) (RF.fin 1e5))
      = RF.fin (1 / (3.354016e-3 : ℝ) - 273.15)
    exact Tnp_at_R25
  · rw [abs_lt]
    constructor
    · norm_num
    · norm_num

theorem nextCur_eq (cur d : ℕ) : nextCur cur d = d := by
  rw [nextCur]
  by_cases h : d = cur
  · rw [if_pos h, h]
  · rw [if_neg h]

theorem curAt_succ (d0 : ℕ) (dates : ℕ → ℕ) (n : ℕ) :
    curAt d0 dates (n + 1) = dates n := by
  rw [curAt, nextCur_eq]

theorem curAt_le_dates (d0 : ℕ) (dates : ℕ → ℕ) (hm : Monotone dates)
    (h0 : d0 ≤ dates 0) : ∀ n, curAt d0 dates n ≤ dates n
  | 0 => h0
  | n + 1 => by
    rw [curAt_succ]
    exact hm (Nat.le_succ n)

/-- Claim C9: in the rotation state machine of the main loop, whenever the
wall-clock date observed at the start of an inner iteration differs from the
current rotation date, that iteration performs exactly one rotation and no
logging: it closes all four files named with the old date and opens four
files named with the newly observed date, updating the rotation date; the
next iteration (the date having settled) writes the four channel lines into
the files named with the new date; and no later iteration ever writes to a
file named with the old date, the wall-clock date sequence being monotone
(and the initial rotation date being no later than the first observation,
as it is read from the same clock just before the loop starts).  The date
comparison happens only at the top of an iteration, never mid-cycle. -/
theorem daily_rotation (d0 n : ℕ) (dates : ℕ → ℕ) (hm : Monotone dates)
    (h0 : d0 ≤ dates 0) (hchg : dates n ≠ curAt d0 dates n)
    (hstay : dates (n + 1) = dates n) :
    iterEvents (curAt d0 dates n) (dates n)
      = closes (curAt d0 dates n) ++ opens (dates n)
    ∧ curAt d0 dates (n + 1) = dates n
    ∧ iterEvents (curAt d0 dates (n + 1)) (dates (n + 1)) = writes (dates n)
    ∧ ∀ m : ℕ, n < m → ∀ c : Chan,
        Ev.wr (curAt d0 dates n) c ∉ iterEvents (curAt d0 dates m) (dates m) := by
  have hlt : curAt d0 dates n < dates n :=
    lt_of_le_of_ne (curAt_le_dates d0 dates hm h0 n) (Ne.symm hchg)
  refine ⟨?_, ?_, ?_, ?_⟩
  · rw [iterEvents, if_neg hchg]
  · exact curAt_succ d0 dates n
  · rw [curAt_succ, iterEvents, if_pos hstay]
  · intro m hnm c hmem
    obtain ⟨k, rfl⟩ : ∃ k, m = k + 1 := ⟨m - 1, by omega⟩
    have hk : n ≤ k := by omega
    have hge : dates n ≤ curAt d0 dates (k + 1) := by
      rw [curAt_succ]
      exact hm hk
    rw [iterEvents] at hmem
    by_cases hd : dates (k + 1) = curAt d0 dates (k + 1)
    · rw [if_pos hd] at hmem
      have hne2 : curAt d0 dates n ≠ curAt d0 dates (k + 1) := by omega
      rw [writes, chans] at hmem
      simp only [List.map_cons, List.map_nil, List.mem_cons, List.not_mem_nil,
        or_false, Ev.wr.injEq] at hmem
      rcases hmem with h | h | h | h
      all_goals exact hne2 h.1
    · rw [if_neg hd] at hmem
      rw [closes, opens, chans] at hmem
      simp only [List.map_cons, List.map_nil, List.mem_append, List.mem_cons,
        List.not_mem_nil, or_false] at hmem
      rcases hmem with (h | h | h | h) | (h | h | h | h)
      all_goals exact Ev.noConfusion h

/-- Claim C9 witness: the concrete date sequence 0, 1, 1, ... with initial
rotation date 0; the boundary is observed at iteration 1. -/
theorem daily_rotation_witness :
    iterEvents (curAt 0 demoDates 1) (demoDates 1)
      = closes (curAt 0 demoDates 1) ++ opens (demoDates 1)
    ∧ Ev.wr (curAt 0 demoDates 1) Chan.room
        ∉ iterEvents (curAt 0 demoDates 2) (demoDates 2) := by
  have h := daily_rotation 0 1 demoDates
    (fun a b hab => min_le_min hab (le_refl 1)) (by decide) (by decide) (by decide)
  exact ⟨h.1, h.2.2.2 2 (by decide) Chan.room⟩
